import Mathlib

/-
Verification of the ShowAds API client (src/services/showads_api_service.py)
against its natural-language specification.

The embedding models the service as explicit state passing:
* `St` holds the mutable service fields (`_access_token`, `_token_expires_at`)
  together with instrumentation (counts of auth/bulk network calls, the list of
  backoff sleeps performed).  Wall-clock time is a constant `now` during a run.
* `Env` gives the transport outcome of the k-th auth POST and the k-th bulk
  POST (indexed by the call counters), so every interleaving of responses can
  be expressed.
* `authFrom` / `getToken` / `sendBulkFrom` / `sendBulkChunk` are direct
  translations of `_authenticate`, `get_token`, `_send_bulk_chunk`.  A raised
  exception is an `Except.error`; `aiohttp.ClientResponseError` (raised by
  `response.raise_for_status()` for statuses >= 400) is a subclass of
  `aiohttp.ClientError`, hence it is caught by the generic handler of the
  retry loops — the translation reflects that.  The JSON payload of a bulk
  request is not observable by any claim and is not modelled.
* `gatherRun` models `asyncio.gather` over the chunk-send tasks created by
  `send_customers`: a cooperative scheduler steps one pending task at a time;
  the gather call resolves as soon as one task finishes with an exception, or
  when all tasks have finished successfully.
* `cstep`/`runSched` model concurrent callers of `get_token` under the event
  loop: the validity check up to issuing the auth POST is one atomic block
  (no await inside), and handling the auth response is another.
-/

namespace ShowAds

/-- Customer model (src/models/customer.py); only the fields used by the
service are relevant. -/
structure Customer where
  Name : String
  Age : Int
  Cookie : String
  Banner_id : Int
deriving DecidableEq, Repr

/-- Max number of records sendable to the bulk route. -/
def BULK_LIMIT : Nat := 1000

/-- Max number of attempts for a single api call. -/
def MAX_ATTEMPTS : Nat := 3

/-- Delay base before retrying a previously failed api call, in seconds. -/
def RETRY_BASE_DELAY : ℚ := 1

/-- Token lifetime installed on authentication: `timedelta(hours=23)`,
in seconds. -/
def TOKEN_TTL : Nat := 23 * 3600

/-- `_calculate_delay`: `self.RETRY_BASE_DELAY * (2 * attempt)`. -/
def calculateDelay (base : ℚ) (attempt : Nat) : ℚ :=
  base * ((2 * attempt : Nat) : ℚ)

/-- The spec's formula, written as the spec words it:
`delay_for(attempt) = base_delay * 2 * attempt`. -/
def delayForSpec (base : ℚ) (attempt : Nat) : ℚ :=
  base * 2 * (attempt : ℚ)

/-- `_chunk_customers`: `[customers[i:i + BULK_LIMIT] for i in
range(0, len(customers), BULK_LIMIT)]`, with the bulk limit as a parameter.
A zero step is a `ValueError` in the source (`range` rejects it); that case
never arises since the limit is the positive constant `BULK_LIMIT`. -/
def chunkCustomers (limit : Nat) (customers : List Customer) : List (List Customer) :=
  if h : limit = 0 ∨ customers = [] then []
  else
    customers.take limit :: chunkCustomers limit (customers.drop limit)
termination_by customers.length
decreasing_by
  push_neg at h
  simp only [List.length_drop]
  exact Nat.sub_lt (List.length_pos.mpr h.2) (Nat.pos_of_ne_zero h.1)

/-- Outcome of one transport call: an HTTP response with a status code and a
body (the body is the `AccessToken` field for the auth endpoint), or a
connection-level `aiohttp.ClientError` raised before any response exists. -/
inductive TResp
  | resp (code : Nat) (body : String)
  | connErr
deriving DecidableEq, Repr

/-- A raised error as seen by callers: `ClientResponseError` carrying the
status of the response it came from, or a connection-level failure. -/
inductive TErr
  | respErr (code : Nat)
  | connFail
deriving DecidableEq, Repr

/-- Transport environment: outcome of the k-th auth POST and of the k-th bulk
POST, indexed by the running call counters. -/
structure Env where
  authResp : Nat → TResp
  bulkResp : Nat → TResp

/-- Service state: the two mutable fields of `ShowAdsApiService` plus
instrumentation (network-call counters and the sleeps performed).  `now` is
the constant value of `datetime.now()` during the run, in seconds. -/
structure St where
  token : Option String
  expiresAt : Option Nat
  now : Nat
  authCalls : Nat
  bulkCalls : Nat
  slept : List ℚ
deriving DecidableEq, Repr

/-- The refresh condition of `get_token`: `self._access_token is None or
self._token_expires_at is None or datetime.now() >= self._token_expires_at`. -/
def tokenInvalid (st : St) : Bool :=
  st.token.isNone || st.expiresAt.isNone || decide (st.expiresAt.getD 0 ≤ st.now)

/-- `_authenticate`, one loop iteration per step.  `attempt` is the 1-based
loop variable; `fuel` is the number of loop iterations still available after
this one (`attempt < MAX_ATTEMPTS` is `0 < fuel`).  Running out of the loop
returns `None` (`Except.ok none`).  For a non-200 status,
`response.raise_for_status()` raises exactly when the status is >= 400, and
that `ClientResponseError` is caught by the `except aiohttp.ClientError`
clause of the same loop, which retries with backoff while attempts remain. -/
def authFrom (env : Env) (base : ℚ) : Nat → Nat → St → St × Except TErr (Option String)
  | _, 0, st => (st, Except.ok none)
  | attempt, fuel + 1, st =>
    match env.authResp st.authCalls with
    | TResp.resp code body =>
      let st1 : St := { st with authCalls := st.authCalls + 1 }
      if code = 200 then
        let st2 : St := { st1 with token := some body,
                                   expiresAt := some (st1.now + TOKEN_TTL) }
        (st2, Except.ok (some body))
      else if code = 429 ∨ code = 500 then
        if 0 < fuel then
          authFrom env base (attempt + 1) fuel
            { st1 with slept := st1.slept ++ [calculateDelay base attempt] }
        else (st1, Except.error (TErr.respErr code))
      else if 400 ≤ code then
        if 0 < fuel then
          authFrom env base (attempt + 1) fuel
            { st1 with slept := st1.slept ++ [calculateDelay base attempt] }
        else (st1, Except.error (TErr.respErr code))
      else
        authFrom env base (attempt + 1) fuel st1
    | TResp.connErr =>
      let st1 : St := { st with authCalls := st.authCalls + 1 }
      if 0 < fuel then
        authFrom env base (attempt + 1) fuel
          { st1 with slept := st1.slept ++ [calculateDelay base attempt] }
      else (st1, Except.error TErr.connFail)

/-- `_authenticate` entry point: the loop runs attempts `1 .. maxA`. -/
def authenticate (env : Env) (base : ℚ) (maxA : Nat) (st : St) :
    St × Except TErr (Option String) :=
  authFrom env base 1 maxA st

/-- `get_token`: refresh when the cached token is missing or expired, then
`return self._access_token or ""`.  An exception raised inside
`_authenticate` propagates. -/
def getToken (env : Env) (base : ℚ) (maxA : Nat) (st : St) : St × Except TErr String :=
  if tokenInvalid st then
    match authenticate env base maxA st with
    | (st1, Except.error e) => (st1, Except.error e)
    | (st1, Except.ok _) => (st1, Except.ok (st1.token.getD ""))
  else (st, Except.ok (st.token.getD ""))

/-- `_send_bulk_chunk`, one loop iteration per step; same `attempt`/`fuel`
convention as `authFrom`.  The call to `get_token` happens inside the `try`,
so an error it raises is caught by the `except aiohttp.ClientError` clause and
retried like any transport failure.  A 401 clears the cached token and its
expiry and, with attempts remaining, continues immediately with no sleep. -/
def sendBulkFrom (env : Env) (base : ℚ) (maxA : Nat) : Nat → Nat → St → St × Except TErr Unit
  | _, 0, st => (st, Except.ok ())
  | attempt, fuel + 1, st =>
    match getToken env base maxA st with
    | (st1, Except.error e) =>
      if 0 < fuel then
        sendBulkFrom env base maxA (attempt + 1) fuel
          { st1 with slept := st1.slept ++ [calculateDelay base attempt] }
      else (st1, Except.error e)
    | (st1, Except.ok _token) =>
      match env.bulkResp st1.bulkCalls with
      | TResp.resp code _body =>
        let st2 : St := { st1 with bulkCalls := st1.bulkCalls + 1 }
        if code = 200 then (st2, Except.ok ())
        else if code = 401 then
          let st3 : St := { st2 with token := none, expiresAt := none }
          if 0 < fuel then
            sendBulkFrom env base maxA (attempt + 1) fuel st3
          else (st3, Except.error (TErr.respErr 401))
        else if code = 429 ∨ code = 500 then
          if 0 < fuel then
            sendBulkFrom env base maxA (attempt + 1) fuel
              { st2 with slept := st2.slept ++ [calculateDelay base attempt] }
          else (st2, Except.error (TErr.respErr code))
        else if 400 ≤ code then
          if 0 < fuel then
            sendBulkFrom env base maxA (attempt + 1) fuel
              { st2 with slept := st2.slept ++ [calculateDelay base attempt] }
          else (st2, Except.error (TErr.respErr code))
        else
          sendBulkFrom env base maxA (attempt + 1) fuel st2
      | TResp.connErr =>
        let st2 : St := { st1 with bulkCalls := st1.bulkCalls + 1 }
        if 0 < fuel then
          sendBulkFrom env base maxA (attempt + 1) fuel
            { st2 with slept := st2.slept ++ [calculateDelay base attempt] }
        else (st2, Except.error TErr.connFail)

/-- `_send_bulk_chunk` entry point: early return for an empty chunk,
otherwise the retry loop over attempts `1 .. maxA`. -/
def sendBulkChunk (env : Env) (base : ℚ) (maxA : Nat) (customers : List Customer)
    (st : St) : St × Except TErr Unit :=
  if customers = [] then (st, Except.ok ())
  else sendBulkFrom env base maxA 1 maxA st

/-- The chunk sends of `send_customers` executed one task at a time (the
cooperative schedule in which each created task runs to completion before the
next): the first raised error is the one `asyncio.gather` surfaces, and no
later chunk is confirmed after it. -/
def dispatchSeq (env : Env) (base : ℚ) (maxA : Nat) :
    List (List Customer) → St → St × Except TErr Unit
  | [], st => (st, Except.ok ())
  | c :: rest, st =>
    match sendBulkChunk env base maxA c st with
    | (st1, Except.ok _) => dispatchSeq env base maxA rest st1
    | (st1, Except.error e) => (st1, Except.error e)

/-- `send_customers` under the sequential schedule: early return on an empty
input, otherwise chunk and dispatch. -/
def sendCustomers (env : Env) (base : ℚ) (maxA : Nat) (limit : Nat)
    (customers : List Customer) (st : St) : St × Except TErr Unit :=
  if customers = [] then (st, Except.ok ())
  else dispatchSeq env base maxA (chunkCustomers limit customers) st

/-- Status of one chunk-send task created by `send_customers`: still pending
with `k` suspension points left before it resolves with result `res`
(`true` = returns normally, `false` = raises), or finished. -/
inductive TaskSt
  | running (k : Nat) (res : Bool)
  | finOk
  | finErr
deriving DecidableEq, Repr

/-- Advance a pending task by one scheduler step. -/
def stepOne : TaskSt → TaskSt
  | TaskSt.running 0 res => if res then TaskSt.finOk else TaskSt.finErr
  | TaskSt.running (k + 1) res => TaskSt.running k res
  | s => s

/-- Step the i-th task of the pool. -/
def stepTask (pool : List TaskSt) (i : Nat) : List TaskSt :=
  pool.set i (stepOne (pool.getD i TaskSt.finOk))

def isFinOk : TaskSt → Bool
  | TaskSt.finOk => true
  | _ => false

def isFinErr : TaskSt → Bool
  | TaskSt.finErr => true
  | _ => false

def isFinished : TaskSt → Bool
  | TaskSt.running _ _ => false
  | _ => true

/-- `await asyncio.gather(*tasks)` (default `return_exceptions=False`) under a
cooperative schedule: before each scheduler event the gather future is
checked — it resolves with the first exception as soon as one task has
failed, or with success once all tasks have finished normally; otherwise the
next scheduled task is stepped.  The returned pool is the task pool at the
moment the gather call resolves (`none` when the schedule ends first). -/
def gatherRun : List TaskSt → List Nat → Option Bool × List TaskSt
  | pool, [] =>
    (if pool.any isFinErr then some false
     else if pool.all isFinOk then some true
     else none, pool)
  | pool, i :: rest =>
    if pool.any isFinErr then (some false, pool)
    else if pool.all isFinOk then (some true, pool)
    else gatherRun (stepTask pool i) rest

/-- The task pool `send_customers` creates: one `asyncio.create_task` per
chunk; `behavior` abstracts each chunk send as its number of suspension
points and its final result. -/
def mkTasks (behavior : List Customer → Nat × Bool) (chunks : List (List Customer)) :
    List TaskSt :=
  chunks.map fun c => TaskSt.running (behavior c).1 (behavior c).2

/-- Program counter of one concurrent caller of `get_token`: `start` (about to
run the validity check; checking and issuing the auth POST is a single atomic
block, there is no await between them), `waitResp` (suspended on its own auth
POST), or `done` with the token value it returned. -/
inductive CallerPc
  | start
  | waitResp
  | done (tok : String)
deriving DecidableEq, Repr

/-- Shared state for N concurrent `get_token` callers: the two cached fields,
the auth-call counter, the number of auth POSTs currently in flight, and each
caller's program counter.  `fresh i` is the token carried by the response to
caller i's own auth POST. -/
structure CSt where
  token : Option String
  expiresAt : Option Nat
  now : Nat
  authCalls : Nat
  inFlight : Nat
  callers : List CallerPc
deriving DecidableEq, Repr

/-- The refresh condition of `get_token` on the shared state. -/
def ctokenInvalid (s : CSt) : Bool :=
  s.token.isNone || s.expiresAt.isNone || decide (s.expiresAt.getD 0 ≤ s.now)

/-- One scheduler step of caller `i`.  At `start`: run the validity check; if
the cached token is invalid, issue an auth POST (one more call, one more in
flight) and suspend; otherwise return the cached token.  At `waitResp`: the
response arrives, `_authenticate` installs the token and `get_token` returns
it. -/
def cstep (fresh : Nat → String) (s : CSt) (i : Nat) : CSt :=
  match s.callers.getD i (CallerPc.done "") with
  | CallerPc.start =>
    if ctokenInvalid s then
      { s with callers := s.callers.set i CallerPc.waitResp,
               authCalls := s.authCalls + 1,
               inFlight := s.inFlight + 1 }
    else
      { s with callers := s.callers.set i (CallerPc.done (s.token.getD "")) }
  | CallerPc.waitResp =>
    { s with token := some (fresh i),
             expiresAt := some (s.now + TOKEN_TTL),
             inFlight := s.inFlight - 1,
             callers := s.callers.set i (CallerPc.done (fresh i)) }
  | CallerPc.done _ => s

/-- Run a schedule of caller steps. -/
def runSched (fresh : Nat → String) (s : CSt) (sched : List Nat) : CSt :=
  sched.foldl (cstep fresh) s

def isDone : CallerPc → Bool
  | CallerPc.done _ => true
  | _ => false

/-- Initial shared state: `n` callers about to call `get_token`, no cached
token. -/
def mkCSt (n : Nat) : CSt :=
  { token := none, expiresAt := none, now := 0, authCalls := 0, inFlight := 0,
    callers := List.replicate n CallerPc.start }

/-- Concrete fresh-token assignment used in the concurrency scenarios. -/
def freshTok : Nat → String :=
  fun i => if i = 0 then "tokA" else "tokB"

/-- Sample customers. -/
def cust0 : Customer := { Name := "John Doe", Age := 25, Cookie := "cookie1", Banner_id := 1 }

def cust1 : Customer := { Name := "Jane Smith", Age := 30, Cookie := "cookie2", Banner_id := 2 }

def cust2 : Customer := { Name := "Bob Johnson", Age := 35, Cookie := "cookie3", Banner_id := 3 }

/-- Initial service state with a valid cached token. -/
def st0 : St :=
  { token := some "T0", expiresAt := some 99999, now := 0,
    authCalls := 0, bulkCalls := 0, slept := [] }

/-- Environment: authentication always succeeds, every bulk call returns 500. -/
def env500 : Env :=
  { authResp := fun _ => TResp.resp 200 "T", bulkResp := fun _ => TResp.resp 500 "" }

/-- Environment: authentication always succeeds, every bulk call returns 400. -/
def env400 : Env :=
  { authResp := fun _ => TResp.resp 200 "T", bulkResp := fun _ => TResp.resp 400 "" }

/-- Environment: authentication always succeeds with a fresh token; the first
bulk call returns 401, later ones succeed. -/
def env401 : Env :=
  { authResp := fun _ => TResp.resp 200 "fresh",
    bulkResp := fun k => if k = 0 then TResp.resp 401 "x" else TResp.resp 200 "y" }

/-- Environment: every call, auth included, returns 400. -/
def envA400 : Env :=
  { authResp := fun _ => TResp.resp 400 "", bulkResp := fun _ => TResp.resp 400 "" }

/-! Theorems.  First the chunking facts, then the retry/token facts, then the
dispatch and concurrency facts. -/

theorem chunkCustomers_nil_eq (limit : Nat) : chunkCustomers limit [] = [] := by
  rw [chunkCustomers]; simp

theorem chunkCustomers_cons_eq (limit : Nat) (cs : List Customer) (h0 : limit ≠ 0)
    (hcs : cs ≠ []) :
    chunkCustomers limit cs = cs.take limit :: chunkCustomers limit (cs.drop limit) := by
  rw [chunkCustomers]; simp [h0, hcs]

theorem chunkCustomers_flatten (limit : Nat) (h : 0 < limit) :
    ∀ cs : List Customer, (chunkCustomers limit cs).flatten = cs := by
  have key : ∀ (n : Nat) (cs : List Customer), cs.length ≤ n →
      (chunkCustomers limit cs).flatten = cs := by
    intro n
    induction n with
    | zero =>
      intro cs hc
      have hnil : cs = [] := List.eq_nil_of_length_eq_zero (Nat.le_zero.mp hc)
      subst hnil
      rw [chunkCustomers_nil_eq]; rfl
    | succ n ih =>
      intro cs hc
      by_cases hcs : cs = []
      · subst hcs; rw [chunkCustomers_nil_eq]; rfl
      · have hlen : 0 < cs.length := List.length_pos.mpr hcs
        rw [chunkCustomers_cons_eq limit cs (Nat.pos_iff_ne_zero.mp h) hcs,
          List.flatten_cons,
          ih (cs.drop limit) (by rw [List.length_drop]; omega),
          List.take_append_drop]
  intro cs
  exact key cs.length cs le_rfl

theorem chunkCustomers_length_eq (limit : Nat) (h : 0 < limit) :
    ∀ cs : List Customer,
      (chunkCustomers limit cs).length = (cs.length + limit - 1) / limit := by
  have key : ∀ (n : Nat) (cs : List Customer), cs.length ≤ n →
      (chunkCustomers limit cs).length = (cs.length + limit - 1) / limit := by
    intro n
    induction n with
    | zero =>
      intro cs hc
      have hnil : cs = [] := List.eq_nil_of_length_eq_zero (Nat.le_zero.mp hc)
      subst hnil
      rw [chunkCustomers_nil_eq]
      simp [Nat.div_eq_of_lt (show limit - 1 < limit by omega)]
    | succ n ih =>
      intro cs hc
      by_cases hcs : cs = []
      · subst hcs
        rw [chunkCustomers_nil_eq]
        simp [Nat.div_eq_of_lt (show limit - 1 < limit by omega)]
      · have hlen : 0 < cs.length := List.length_pos.mpr hcs
        rw [chunkCustomers_cons_eq limit cs (Nat.pos_iff_ne_zero.mp h) hcs]
        rw [List.length_cons, ih (cs.drop limit) (by rw [List.length_drop]; omega)]
        rw [List.length_drop]
        have e1 : cs.length + limit - 1 = (cs.length - 1) + limit := by omega
        rw [e1, Nat.add_div_right _ h]
        rcases le_or_lt cs.length limit with hml | hml
        · have e2 : cs.length - limit = 0 := by omega
          rw [e2]
          rw [Nat.div_eq_of_lt (show 0 + limit - 1 < limit by omega),
            Nat.div_eq_of_lt (show cs.length - 1 < limit by omega)]
        · have e2 : cs.length - limit + limit - 1 = cs.length - 1 := by omega
          rw [e2]
  intro cs
  exact key cs.length cs le_rfl

theorem chunkCustomers_getD_length (limit : Nat) (h : 0 < limit) :
    ∀ (cs : List Customer) (i : Nat), i + 1 < (chunkCustomers limit cs).length →
      ((chunkCustomers limit cs).getD i []).length = limit := by
  have key : ∀ (n : Nat) (cs : List Customer), cs.length ≤ n →
      ∀ i : Nat, i + 1 < (chunkCustomers limit cs).length →
        ((chunkCustomers limit cs).getD i []).length = limit := by
    intro n
    induction n with
    | zero =>
      intro cs hc i hi
      have hnil : cs = [] := List.eq_nil_of_length_eq_zero (Nat.le_zero.mp hc)
      subst hnil
      rw [chunkCustomers_nil_eq] at hi
      simp at hi
    | succ n ih =>
      intro cs hc i hi
      by_cases hcs : cs = []
      · subst hcs; rw [chunkCustomers_nil_eq] at hi; simp at hi
      · have hlen : 0 < cs.length := List.length_pos.mpr hcs
        rw [chunkCustomers_cons_eq limit cs (Nat.pos_iff_ne_zero.mp h) hcs] at hi ⊢
        cases i with
        | zero =>
          by_cases hlim : limit ≤ cs.length
          · simp [List.length_take_of_le hlim]
          · have hdrop : cs.drop limit = [] := by
              apply List.drop_eq_nil_of_le; omega
            rw [hdrop, chunkCustomers_nil_eq] at hi
            simp at hi
        | succ i =>
          have hstep : ((cs.take limit :: chunkCustomers limit (cs.drop limit)).getD
              (i + 1) []) = (chunkCustomers limit (cs.drop limit)).getD i [] := rfl
          rw [hstep]
          apply ih (cs.drop limit) (by rw [List.length_drop]; omega) i
          simpa using hi
  intro cs
  exact key cs.length cs le_rfl

theorem chunkCustomers_mem_length (limit : Nat) (h : 0 < limit) :
    ∀ cs : List Customer, ∀ c ∈ chunkCustomers limit cs, c.length ≤ limit ∧ c ≠ [] := by
  have key : ∀ (n : Nat) (cs : List Customer), cs.length ≤ n →
      ∀ c ∈ chunkCustomers limit cs, c.length ≤ limit ∧ c ≠ [] := by
    intro n
    induction n with
    | zero =>
      intro cs hc c hmem
      have hnil : cs = [] := List.eq_nil_of_length_eq_zero (Nat.le_zero.mp hc)
      subst hnil
      rw [chunkCustomers_nil_eq] at hmem
      simp at hmem
    | succ n ih =>
      intro cs hc c hmem
      by_cases hcs : cs = []
      · subst hcs; rw [chunkCustomers_nil_eq] at hmem; simp at hmem
      · have hlen : 0 < cs.length := List.length_pos.mpr hcs
        rw [chunkCustomers_cons_eq limit cs (Nat.pos_iff_ne_zero.mp h) hcs] at hmem
        rcases List.mem_cons.mp hmem with hc1 | hc2
        · subst hc1
          refine ⟨List.length_take_le limit cs, ?_⟩
          rw [Ne, List.take_eq_nil_iff]
          push_neg
          exact ⟨Nat.pos_iff_ne_zero.mp h, hcs⟩
        · exact ih (cs.drop limit) (by rw [List.length_drop]; omega) c hc2
  intro cs
  exact key cs.length cs le_rfl

/-- Claim C2: for every list of records and positive limit, `_chunk_customers`
splits the input into `ceil(len/limit)` contiguous chunks in original order
(their concatenation is the input), each chunk of size exactly `limit` except
possibly the last, every chunk nonempty and of size at most `limit`; an empty
input yields zero chunks. -/
theorem chunk_partitions (limit : Nat) (cs : List Customer) (h : 0 < limit) :
    (chunkCustomers limit cs).length = (cs.length + limit - 1) / limit
    ∧ (chunkCustomers limit cs).flatten = cs
    ∧ (∀ i : Nat, i + 1 < (chunkCustomers limit cs).length →
        ((chunkCustomers limit cs).getD i []).length = limit)
    ∧ (∀ c ∈ chunkCustomers limit cs, c.length ≤ limit ∧ c ≠ [])
    ∧ chunkCustomers limit [] = [] :=
  ⟨chunkCustomers_length_eq limit h cs, chunkCustomers_flatten limit h cs,
   fun i hi => chunkCustomers_getD_length limit h cs i hi,
   chunkCustomers_mem_length limit h cs, chunkCustomers_nil_eq limit⟩

theorem chunk_partitions_witness :
    (chunkCustomers 2 [cust0, cust1, cust2]).length = 2 := by
  simpa using (chunk_partitions 2 [cust0, cust1, cust2] (by norm_num)).1

/-- Claim C10: for every list of records and every positive limit,
concatenating the chunks produced by `_chunk_customers` in order yields
exactly the original list. -/
theorem chunk_flatten_id (limit : Nat) (cs : List Customer) (h : 0 < limit) :
    (chunkCustomers limit cs).flatten = cs :=
  chunkCustomers_flatten limit h cs

theorem chunk_flatten_id_witness :
    (chunkCustomers 2 [cust2, cust0, cust1]).flatten = [cust2, cust0, cust1] :=
  chunk_flatten_id 2 [cust2, cust0, cust1] (by norm_num)

/-- Claim C8: `_calculate_delay` computes `base_delay * 2 * attempt`; with
`base_delay = 1.0` the delays for attempts 1, 2, 3, 4 are 2, 4, 6, 8
seconds. -/
theorem delay_linear :
    (∀ (base : ℚ) (n : Nat), 1 ≤ n → calculateDelay base n = delayForSpec base n)
    ∧ calculateDelay 1 1 = 2 ∧ calculateDelay 1 2 = 4
    ∧ calculateDelay 1 3 = 6 ∧ calculateDelay 1 4 = 8 := by
  refine ⟨fun base n _ => ?_, by norm_num [calculateDelay], by norm_num [calculateDelay],
    by norm_num [calculateDelay], by norm_num [calculateDelay]⟩
  unfold calculateDelay delayForSpec
  push_cast
  ring

theorem delay_linear_witness : calculateDelay 1 5 = delayForSpec 1 5 :=
  delay_linear.1 1 5 (by norm_num)

theorem tokenInvalid_eq_false (st : St) (t : String) (ex : Nat)
    (h1 : st.token = some t) (h2 : st.expiresAt = some ex) (h3 : st.now < ex) :
    tokenInvalid st = false := by
  simp [tokenInvalid, h1, h2]
  omega

theorem authFrom_authCalls_le (env : Env) (base : ℚ) :
    ∀ (fuel attempt : Nat) (st : St),
      st.authCalls ≤ (authFrom env base attempt fuel st).1.authCalls := by
  intro fuel
  induction fuel with
  | zero => intro attempt st; simp [authFrom]
  | succ n ih =>
    intro attempt st
    have step : ∀ (a : Nat) (st2 : St), st.authCalls + 1 = st2.authCalls →
        st.authCalls ≤ (authFrom env base a n st2).1.authCalls := by
      intro a st2 he
      have := ih a st2
      omega
    simp only [authFrom]
    cases henv : env.authResp st.authCalls with
    | resp code body =>
      simp only []
      split_ifs with h200 h45 hn h400 hn2
      · exact Nat.le_succ _
      · exact step _ _ rfl
      · exact Nat.le_succ _
      · exact step _ _ rfl
      · exact Nat.le_succ _
      · exact step _ _ rfl
    | connErr =>
      simp only []
      split_ifs with hn
      · exact step _ _ rfl
      · exact Nat.le_succ _

theorem authFrom_authCalls_lt (env : Env) (base : ℚ) (n attempt : Nat) (st : St) :
    st.authCalls < (authFrom env base attempt (n + 1) st).1.authCalls := by
  have step : ∀ (a : Nat) (st2 : St), st.authCalls + 1 = st2.authCalls →
      st.authCalls < (authFrom env base a n st2).1.authCalls := by
    intro a st2 he
    have := authFrom_authCalls_le env base n a st2
    omega
  simp only [authFrom]
  cases henv : env.authResp st.authCalls with
  | resp code body =>
    simp only []
    split_ifs with h200 h45 hn h400 hn2
    · exact Nat.lt_succ_self _
    · exact step _ _ rfl
    · exact Nat.lt_succ_self _
    · exact step _ _ rfl
    · exact Nat.lt_succ_self _
    · exact step _ _ rfl
  | connErr =>
    simp only []
    split_ifs with hn
    · exact step _ _ rfl
    · exact Nat.lt_succ_self _

/-- Claim C7: with a cached token whose expiry is strictly in the future,
`get_token` returns it unchanged with no network call (the state, auth-call
counter included, is untouched); with a missing or expired token it performs
at least one authentication call. -/
theorem cached_token_no_call :
    (∀ (env : Env) (base : ℚ) (maxA : Nat) (st : St) (t : String) (ex : Nat),
      st.token = some t → st.expiresAt = some ex → st.now < ex →
      getToken env base maxA st = (st, Except.ok t))
    ∧ (∀ (env : Env) (base : ℚ) (maxA : Nat) (st : St),
      1 ≤ maxA → tokenInvalid st = true →
      st.authCalls < (getToken env base maxA st).1.authCalls) := by
  constructor
  · intro env base maxA st t ex h1 h2 h3
    have hval := tokenInvalid_eq_false st t ex h1 h2 h3
    simp [getToken, hval, h1]
  · intro env base maxA st hm hinv
    obtain ⟨m, rfl⟩ : ∃ m, maxA = m + 1 := ⟨maxA - 1, by omega⟩
    have hlt := authFrom_authCalls_lt env base m 1 st
    simp only [getToken, hinv, if_true]
    unfold authenticate
    rcases hres : authFrom env base 1 (m + 1) st with ⟨st1, r⟩
    rw [hres] at hlt
    cases r with
    | error e => simpa using hlt
    | ok v => simpa using hlt

theorem cached_token_no_call_witness :
    getToken env500 1 3 st0 = (st0, Except.ok "T0") :=
  cached_token_no_call.1 env500 1 3 st0 "T0" 99999 rfl rfl (by norm_num [st0])

theorem getToken_auth200 (env : Env) (base : ℚ) (maxA : Nat) (st : St) (T : String)
    (hauth : ∀ k, env.authResp k = TResp.resp 200 T) :
    ∃ st1 tok, getToken env base maxA st = (st1, Except.ok tok)
      ∧ st1.bulkCalls = st.bulkCalls ∧ st1.slept = st.slept := by
  unfold getToken authenticate
  by_cases hinv : tokenInvalid st
  · simp only [hinv, if_true]
    cases maxA with
    | zero =>
      refine ⟨st, st.token.getD "", ?_, rfl, rfl⟩
      simp [authFrom]
    | succ m =>
      refine ⟨{ st with authCalls := st.authCalls + 1, token := some T, expiresAt := some (st.now + TOKEN_TTL) }, T, ?_, rfl, rfl⟩
      simp [authFrom, hauth st.authCalls]
  · rw [if_neg hinv]
    exact ⟨st, st.token.getD "", rfl, rfl, rfl⟩

theorem sendBulkFrom_allFail (env : Env) (base : ℚ) (maxA : Nat) (c : Nat) (T : String)
    (hc : 400 ≤ c) (hc401 : c ≠ 401)
    (hbulk : ∀ k, env.bulkResp k = TResp.resp c "")
    (hauth : ∀ k, env.authResp k = TResp.resp 200 T) :
    ∀ (fuel attempt : Nat) (st : St), 1 ≤ fuel →
      (sendBulkFrom env base maxA attempt fuel st).2 = Except.error (TErr.respErr c)
      ∧ (sendBulkFrom env base maxA attempt fuel st).1.bulkCalls = st.bulkCalls + fuel := by
  intro fuel
  induction fuel with
  | zero => intro attempt st h; exact absurd h (by norm_num)
  | succ n ih =>
    intro attempt st _
    obtain ⟨st1, tok, hg, hb, _⟩ := getToken_auth200 env base maxA st T hauth
    have h200 : ¬ (c = 200) := by omega
    simp only [sendBulkFrom, hg]
    rw [hbulk st1.bulkCalls]
    simp only []
    rw [if_neg h200, if_neg hc401]
    by_cases h45 : c = 429 ∨ c = 500
    · rw [if_pos h45]
      by_cases hn : 0 < n
      · rw [if_pos hn]
        have hih := ih (attempt + 1)
          { st1 with bulkCalls := st1.bulkCalls + 1,
                     slept := st1.slept ++ [calculateDelay base attempt] } (by omega)
        refine ⟨hih.1, ?_⟩
        rw [hih.2]
        simp only []
        omega
      · rw [if_neg hn]
        have hn0 : n = 0 := by omega
        subst hn0
        exact ⟨rfl, by simp only []; omega⟩
    · rw [if_neg h45, if_pos hc]
      by_cases hn : 0 < n
      · rw [if_pos hn]
        have hih := ih (attempt + 1)
          { st1 with bulkCalls := st1.bulkCalls + 1,
                     slept := st1.slept ++ [calculateDelay base attempt] } (by omega)
        refine ⟨hih.1, ?_⟩
        rw [hih.2]
        simp only []
        omega
      · rw [if_neg hn]
        have hn0 : n = 0 := by omega
        subst hn0
        exact ⟨rfl, by simp only []; omega⟩

theorem authFrom_allFail (env : Env) (base : ℚ) (c : Nat)
    (hc : 400 ≤ c) (hauth : ∀ k, env.authResp k = TResp.resp c "") :
    ∀ (fuel attempt : Nat) (st : St), 1 ≤ fuel →
      (authFrom env base attempt fuel st).2 = Except.error (TErr.respErr c)
      ∧ (authFrom env base attempt fuel st).1.authCalls = st.authCalls + fuel := by
  intro fuel
  induction fuel with
  | zero => intro attempt st h; exact absurd h (by norm_num)
  | succ n ih =>
    intro attempt st _
    have h200 : ¬ (c = 200) := by omega
    simp only [authFrom]
    rw [hauth st.authCalls]
    simp only []
    rw [if_neg h200]
    by_cases h45 : c = 429 ∨ c = 500
    · rw [if_pos h45]
      by_cases hn : 0 < n
      · rw [if_pos hn]
        have hih := ih (attempt + 1)
          { st with authCalls := st.authCalls + 1,
                    slept := st.slept ++ [calculateDelay base attempt] } (by omega)
        refine ⟨hih.1, ?_⟩
        rw [hih.2]
        simp only []
        omega
      · rw [if_neg hn]
        have hn0 : n = 0 := by omega
        subst hn0
        exact ⟨rfl, by simp⟩
    · rw [if_neg h45, if_pos hc]
      by_cases hn : 0 < n
      · rw [if_pos hn]
        have hih := ih (attempt + 1)
          { st with authCalls := st.authCalls + 1,
                    slept := st.slept ++ [calculateDelay base attempt] } (by omega)
        refine ⟨hih.1, ?_⟩
        rw [hih.2]
        simp only []
        omega
      · rw [if_neg hn]
        have hn0 : n = 0 := by omega
        subst hn0
        exact ⟨rfl, by simp⟩

/-- Claim C4: when every bulk attempt for a chunk returns HTTP 500 (and
authentication succeeds), the chunk send makes exactly `max_attempts` bulk
calls and then terminates with the raised error wrapping the last classified
failure (status 500); the loop never continues past `max_attempts`. -/
theorem bulk_500_exhausts (env : Env) (base : ℚ) (maxA : Nat)
    (customers : List Customer) (st : St) (T : String)
    (hbulk : ∀ k, env.bulkResp k = TResp.resp 500 "")
    (hauth : ∀ k, env.authResp k = TResp.resp 200 T)
    (hm : 1 ≤ maxA) (hcs : customers ≠ []) :
    (sendBulkChunk env base maxA customers st).2 = Except.error (TErr.respErr 500)
    ∧ (sendBulkChunk env base maxA customers st).1.bulkCalls = st.bulkCalls + maxA := by
  unfold sendBulkChunk
  rw [if_neg hcs]
  exact sendBulkFrom_allFail env base maxA 500 T (by norm_num) (by norm_num)
    hbulk hauth maxA 1 st hm

theorem bulk_500_exhausts_witness :
    (sendBulkChunk env500 1 3 [cust0] st0).2 = Except.error (TErr.respErr 500) :=
  (bulk_500_exhausts env500 1 3 [cust0] st0 "T" (fun _ => rfl) (fun _ => rfl)
    (by norm_num) (by simp)).1

/-- Claim C5 counterexample: with every bulk response a 400 (a 4xx that is
neither 401 nor 429) and authentication succeeding, the loop does not stop
after a single bulk call: `raise_for_status` raises `ClientResponseError`,
which the `except aiohttp.ClientError` clause catches and retries.  This
refutes fatal-with-no-retry for the `ClientError` class. -/
theorem clientError_immediate_stop_refuted :
    ¬ (∀ (maxA : Nat) (customers : List Customer) (st : St),
        customers ≠ [] → 1 ≤ maxA →
        (sendBulkChunk env400 1 maxA customers st).1.bulkCalls = st.bulkCalls + 1) := by
  intro hall
  have h := hall 3 [cust0] st0 (by simp) (by norm_num)
  have he : (sendBulkChunk env400 1 3 [cust0] st0).1.bulkCalls = 3 := by rfl
  rw [he] at h
  simp [st0] at h

/-- Claim C5 amended: a 4xx status other than 401 and 429 does not stop the
retry loop immediately; it is retried with backoff while attempts remain and
surfaces as fatal only after `max_attempts` total calls, on both the
bulk-send path and the authentication path. -/
theorem clientError_retried_with_backoff
    (envB envA : Env) (base : ℚ) (maxA : Nat) (customers : List Customer) (st : St)
    (c : Nat) (T : String)
    (hc4 : 400 ≤ c) (hc5 : c < 500) (h401 : c ≠ 401) (h429 : c ≠ 429)
    (hbulk : ∀ k, envB.bulkResp k = TResp.resp c "")
    (hauthT : ∀ k, envB.authResp k = TResp.resp 200 T)
    (hauthc : ∀ k, envA.authResp k = TResp.resp c "")
    (hm : 1 ≤ maxA) (hcs : customers ≠ []) :
    ((sendBulkChunk envB base maxA customers st).2 = Except.error (TErr.respErr c)
      ∧ (sendBulkChunk envB base maxA customers st).1.bulkCalls = st.bulkCalls + maxA)
    ∧ ((authenticate envA base maxA st).2 = Except.error (TErr.respErr c)
      ∧ (authenticate envA base maxA st).1.authCalls = st.authCalls + maxA) := by
  constructor
  · unfold sendBulkChunk
    rw [if_neg hcs]
    exact sendBulkFrom_allFail envB base maxA c T hc4 h401 hbulk hauthT maxA 1 st hm
  · exact authFrom_allFail envA base c hc4 hauthc maxA 1 st hm

theorem clientError_retried_with_backoff_witness :
    (sendBulkChunk env400 1 3 [cust0] st0).2 = Except.error (TErr.respErr 400) :=
  (clientError_retried_with_backoff env400 envA400 1 3 [cust0] st0 400 "T"
    (by norm_num) (by norm_num) (by norm_num) (by norm_num)
    (fun _ => rfl) (fun _ => rfl) (fun _ => rfl) (by norm_num) (by simp)).1.1

/-- Claim C6: when a bulk attempt gets HTTP 401 with attempts remaining, the
cached token and its expiry are cleared and the loop recurses immediately —
the step equation (last conjunct) shows the retry starts from the state with
`token = none`, `expiresAt = none` and nothing appended to the sleep log.
The next attempt re-fetches the token, performing exactly one fresh
authentication call, and succeeds with the freshly issued token installed;
no backoff sleep is ever recorded. -/
theorem unauthorized_clears_and_retries
    (env : Env) (base : ℚ) (maxA : Nat) (customers : List Customer) (st : St)
    (t tok b1 b2 : String) (ex : Nat)
    (h1 : st.token = some t) (h2 : st.expiresAt = some ex) (h3 : st.now < ex)
    (hb0 : env.bulkResp st.bulkCalls = TResp.resp 401 b1)
    (hb1 : env.bulkResp (st.bulkCalls + 1) = TResp.resp 200 b2)
    (ha : env.authResp st.authCalls = TResp.resp 200 tok)
    (hm : 2 ≤ maxA) (hcs : customers ≠ []) :
    (sendBulkChunk env base maxA customers st).2 = Except.ok ()
    ∧ (sendBulkChunk env base maxA customers st).1.bulkCalls = st.bulkCalls + 2
    ∧ (sendBulkChunk env base maxA customers st).1.authCalls = st.authCalls + 1
    ∧ (sendBulkChunk env base maxA customers st).1.slept = st.slept
    ∧ (sendBulkChunk env base maxA customers st).1.token = some tok
    ∧ sendBulkFrom env base maxA 1 maxA st
        = sendBulkFrom env base maxA 2 (maxA - 1)
            { st with token := none, expiresAt := none, bulkCalls := st.bulkCalls + 1 } := by
  obtain ⟨m, rfl⟩ : ∃ m, maxA = m + 2 := ⟨maxA - 2, by omega⟩
  have hval : tokenInvalid st = false := tokenInvalid_eq_false st t ex h1 h2 h3
  have e1 : getToken env base (m + 2) st = (st, Except.ok t) := by
    simp [getToken, hval, h1]
  have estep : sendBulkFrom env base (m + 2) 1 (m + 2) st
      = sendBulkFrom env base (m + 2) 2 (m + 1)
          { st with token := none, expiresAt := none, bulkCalls := st.bulkCalls + 1 } := by
    show sendBulkFrom env base (m + 2) 1 (m + 1 + 1) st = _
    conv_lhs => rw [sendBulkFrom]
    rw [e1]
    simp [hb0]
  have hval3 : tokenInvalid
      { st with token := none, expiresAt := none, bulkCalls := st.bulkCalls + 1 } = true := by
    simp [tokenInvalid]
  have ea : authFrom env base 1 (m + 2) { st with token := none, expiresAt := none, bulkCalls := st.bulkCalls + 1 } = ({ st with token := some tok, expiresAt := some (st.now + TOKEN_TTL), authCalls := st.authCalls + 1, bulkCalls := st.bulkCalls + 1 }, Except.ok (some tok)) := by
    show authFrom env base 1 (m + 1 + 1) _ = _
    conv_lhs => rw [authFrom]
    simp [ha]
  have e4 : getToken env base (m + 2) { st with token := none, expiresAt := none, bulkCalls := st.bulkCalls + 1 } = ({ st with token := some tok, expiresAt := some (st.now + TOKEN_TTL), authCalls := st.authCalls + 1, bulkCalls := st.bulkCalls + 1 }, Except.ok tok) := by
    simp only [getToken, hval3, if_true]
    unfold authenticate
    rw [ea]
    rfl
  have hrun : sendBulkFrom env base (m + 2) 1 (m + 2) st = ({ st with token := some tok, expiresAt := some (st.now + TOKEN_TTL), authCalls := st.authCalls + 1, bulkCalls := st.bulkCalls + 2 }, Except.ok ()) := by
    rw [estep]
    show sendBulkFrom env base (m + 2) 2 (m + 1) _ = _
    conv_lhs => rw [sendBulkFrom]
    rw [e4]
    simp [hb1]
  have hchunk : sendBulkChunk env base (m + 2) customers st = ({ st with token := some tok, expiresAt := some (st.now + TOKEN_TTL), authCalls := st.authCalls + 1, bulkCalls := st.bulkCalls + 2 }, Except.ok ()) := by
    unfold sendBulkChunk
    rw [if_neg hcs]
    exact hrun
  refine ⟨?_, ?_, ?_, ?_, ?_, ?_⟩
  · rw [hchunk]
  · rw [hchunk]
  · rw [hchunk]
  · rw [hchunk]
  · rw [hchunk]
  · have hm1 : m + 2 - 1 = m + 1 := by omega
    rw [hm1]
    exact estep

theorem unauthorized_clears_and_retries_witness :
    (sendBulkChunk env401 1 3 [cust0] st0).2 = Except.ok () :=
  (unauthorized_clears_and_retries env401 1 3 [cust0] st0 "T0" "fresh" "x" "y" 99999
    rfl rfl (by norm_num [st0]) rfl rfl rfl (by norm_num) (by simp)).1

theorem chunk_one_singleton : chunkCustomers 1 [cust0] = [[cust0]] := by
  rw [chunkCustomers_cons_eq 1 [cust0] (by norm_num) (by simp)]
  simp [chunkCustomers_nil_eq]

theorem chunk_one_pair : chunkCustomers 1 [cust0, cust1] = [[cust0], [cust1]] := by
  rw [chunkCustomers_cons_eq 1 [cust0, cust1] (by norm_num) (by simp)]
  simp only [List.take_succ_cons, List.take_zero, List.drop_succ_cons, List.drop_zero]
  rw [chunkCustomers_cons_eq 1 [cust1] (by norm_num) (by simp)]
  simp [chunkCustomers_nil_eq]

/-- Claim C9 counterexample: two failing sends with different numbers of
unconfirmed records surface the very same error value (the raised
`ClientResponseError` carries only the failing response, not chunk
identities or record counts), so no reading of the surfaced error can
report how many records were not confirmed delivered. -/
theorem fatal_error_reports_counts_refuted :
    ¬ ∃ undeliveredOf : TErr → Nat,
      ∀ (limit maxA : Nat) (cs : List Customer) (st : St) (e : TErr),
        (sendCustomers env500 1 maxA limit cs st).2 = Except.error e →
        undeliveredOf e = cs.length := by
  rintro ⟨f, hf⟩
  have hrun1 : (sendCustomers env500 1 3 1 [cust0] st0).2
      = Except.error (TErr.respErr 500) := by
    unfold sendCustomers
    rw [if_neg (by simp), chunk_one_singleton]
    rfl
  have hrun2 : (sendCustomers env500 1 3 1 [cust0, cust1] st0).2
      = Except.error (TErr.respErr 500) := by
    unfold sendCustomers
    rw [if_neg (by simp), chunk_one_pair]
    rfl
  have h1 := hf 1 3 [cust0] st0 (TErr.respErr 500) hrun1
  have h2 := hf 1 3 [cust0, cust1] st0 (TErr.respErr 500) hrun2
  simp at h1 h2
  omega

/-- Claim C9 amended: a fatally failing send surfaces only the first chunk's
raised transport error; the surfaced value is the same whatever the number of
records or chunks involved, so it carries no record count and no chunk
identification. -/
theorem fatal_error_only_first_failure
    (env : Env) (base : ℚ) (maxA limit : Nat) (customers : List Customer) (st : St)
    (c : Nat) (T : String)
    (hc4 : 400 ≤ c) (h401 : c ≠ 401)
    (hbulk : ∀ k, env.bulkResp k = TResp.resp c "")
    (hauth : ∀ k, env.authResp k = TResp.resp 200 T)
    (hm : 1 ≤ maxA) (hlim : 0 < limit) (hcs : customers ≠ []) :
    (sendCustomers env base maxA limit customers st).2
      = Except.error (TErr.respErr c) := by
  unfold sendCustomers
  rw [if_neg hcs]
  rw [chunkCustomers_cons_eq limit customers (Nat.pos_iff_ne_zero.mp hlim) hcs]
  have htake : customers.take limit ≠ [] := by
    rw [Ne, List.take_eq_nil_iff]
    push_neg
    exact ⟨Nat.pos_iff_ne_zero.mp hlim, hcs⟩
  rcases hres : sendBulkChunk env base maxA (customers.take limit) st with ⟨st1, r⟩
  have hr : r = Except.error (TErr.respErr c) := by
    have h2 : (sendBulkChunk env base maxA (customers.take limit) st).2
        = Except.error (TErr.respErr c) := by
      unfold sendBulkChunk
      rw [if_neg htake]
      exact (sendBulkFrom_allFail env base maxA c T hc4 h401 hbulk hauth maxA 1 st hm).1
    rw [hres] at h2
    exact h2
  subst hr
  conv_lhs => rw [dispatchSeq]
  rw [hres]

theorem fatal_error_only_first_failure_witness :
    (sendCustomers env500 1 3 1 [cust0, cust1] st0).2
      = Except.error (TErr.respErr 500) :=
  fatal_error_only_first_failure env500 1 3 1 [cust0, cust1] st0 500 "T"
    (by norm_num) (by norm_num) (fun _ => rfl) (fun _ => rfl)
    (by norm_num) (by norm_num) (by simp)

/-- Claim C3 counterexample: `asyncio.gather` (without `return_exceptions`)
resolves with the first raised exception as soon as it occurs; in this run
the dispatch call returns a failure while a sibling chunk-send task is still
pending, so the call does not wait for all scheduled sends to finish when one
fails fatally. -/
theorem dispatch_waits_for_all_refuted :
    ¬ (∀ (pool : List TaskSt) (sched : List Nat),
        (gatherRun pool sched).1.isSome = true →
        (gatherRun pool sched).2.all isFinished = true) := by
  intro hall
  have h := hall [TaskSt.running 0 false, TaskSt.running 1 true] [0] (by rfl)
  exact absurd h (by decide)

/-- Claim C3 amended: `send_customers` schedules one task per chunk and the
gather call waits for every task only when all of them succeed; when a task
fails fatally the call resolves with that failure at once — the final pool
then contains the failed task, and an unfinished sibling is left pending
(never cancelled) rather than awaited. -/
theorem dispatch_gather_semantics :
    (∀ (behavior : List Customer → Nat × Bool) (chunks : List (List Customer)),
      (mkTasks behavior chunks).length = chunks.length)
    ∧ (∀ (pool : List TaskSt) (sched : List Nat),
        (gatherRun pool sched).1 = some true →
        (gatherRun pool sched).2.all isFinOk = true)
    ∧ (∀ (pool : List TaskSt) (sched : List Nat),
        (gatherRun pool sched).1 = some false →
        (gatherRun pool sched).2.any isFinErr = true) := by
  refine ⟨fun b chunks => by simp [mkTasks], ?_, ?_⟩
  · intro pool sched
    induction sched generalizing pool with
    | nil =>
      intro h
      simp only [gatherRun] at h ⊢
      by_cases h1 : pool.any isFinErr = true
      · rw [if_pos h1] at h
        exact absurd h (by simp)
      · rw [if_neg h1] at h
        by_cases h2 : pool.all isFinOk = true
        · exact h2
        · rw [if_neg h2] at h
          exact absurd h (by simp)
    | cons i rest ih =>
      intro h
      simp only [gatherRun] at h ⊢
      by_cases h1 : pool.any isFinErr = true
      · rw [if_pos h1] at h
        exact absurd h (by simp)
      · rw [if_neg h1] at h ⊢
        by_cases h2 : pool.all isFinOk = true
        · rw [if_pos h2] at h ⊢
          exact h2
        · rw [if_neg h2] at h ⊢
          exact ih (stepTask pool i) h
  · intro pool sched
    induction sched generalizing pool with
    | nil =>
      intro h
      simp only [gatherRun] at h ⊢
      by_cases h1 : pool.any isFinErr = true
      · exact h1
      · rw [if_neg h1] at h
        by_cases h2 : pool.all isFinOk = true
        · rw [if_pos h2] at h
          exact absurd h (by simp)
        · rw [if_neg h2] at h
          exact absurd h (by simp)
    | cons i rest ih =>
      intro h
      simp only [gatherRun] at h ⊢
      by_cases h1 : pool.any isFinErr = true
      · rw [if_pos h1] at h ⊢
        exact h1
      · rw [if_neg h1] at h ⊢
        by_cases h2 : pool.all isFinOk = true
        · rw [if_pos h2] at h
          exact absurd h (by simp)
        · rw [if_neg h2] at h ⊢
          exact ih (stepTask pool i) h

theorem dispatch_gather_semantics_witness :
    (gatherRun [TaskSt.running 0 true] [0]).2.all isFinOk = true :=
  dispatch_gather_semantics.2.1 [TaskSt.running 0 true] [0] rfl

/-- Claim C1 counterexample: two concurrent `get_token` callers with no
cached token, interleaved so that both run the validity check before either
refresh response arrives, make two authentication calls, have two refreshes
in flight simultaneously, and finish holding the results of two different
refreshes — `get_token` has no single-flight coordination. -/
theorem single_flight_refuted :
    (¬ (∀ sched : List Nat,
        ((runSched freshTok (mkCSt 2) sched).callers.all isDone) = true →
        (runSched freshTok (mkCSt 2) sched).authCalls = 1))
    ∧ (runSched freshTok (mkCSt 2) [0, 1]).inFlight = 2
    ∧ (runSched freshTok (mkCSt 2) [0, 1, 0, 1]).callers
        = [CallerPc.done "tokA", CallerPc.done "tokB"] := by
  refine ⟨?_, rfl, rfl⟩
  intro hall
  have h := hall [0, 1, 0, 1] (by rfl)
  rw [show (runSched freshTok (mkCSt 2) [0, 1, 0, 1]).authCalls = 2 from rfl] at h
  exact absurd h (by norm_num)

/-- Claim C1 amended: `get_token` has no refresh lock: a caller that observes
an invalid token always issues its own authentication call and places one
more refresh in flight, regardless of how many are already in flight, and a
caller whose refresh response arrives installs and returns the token of its
own refresh.  Hence N callers that all check before any response arrives
make N authentication calls with N refreshes in flight (shown concretely for
three callers). -/
theorem concurrent_refresh_per_caller :
    (∀ (fresh : Nat → String) (s : CSt) (i : Nat),
      s.callers.getD i (CallerPc.done "") = CallerPc.start →
      ctokenInvalid s = true →
      (cstep fresh s i).authCalls = s.authCalls + 1
      ∧ (cstep fresh s i).inFlight = s.inFlight + 1
      ∧ (cstep fresh s i).token = s.token)
    ∧ (∀ (fresh : Nat → String) (s : CSt) (i : Nat),
      s.callers.getD i (CallerPc.done "") = CallerPc.waitResp →
      (cstep fresh s i).token = some (fresh i)
      ∧ (cstep fresh s i).callers = s.callers.set i (CallerPc.done (fresh i)))
    ∧ (runSched freshTok (mkCSt 3) [0, 1, 2]).authCalls = 3
    ∧ (runSched freshTok (mkCSt 3) [0, 1, 2]).inFlight = 3 := by
  refine ⟨?_, ?_, rfl, rfl⟩
  · intro fresh s i hpc hinv
    unfold cstep
    rw [hpc, hinv]
    simp
  · intro fresh s i hpc
    unfold cstep
    rw [hpc]
    simp

theorem concurrent_refresh_per_caller_witness :
    (cstep freshTok (mkCSt 2) 0).authCalls = (mkCSt 2).authCalls + 1 :=
  (concurrent_refresh_per_caller.1 freshTok (mkCSt 2) 0 rfl rfl).1

end ShowAds
